import Mathlib

/-!
Verification development for the Understanding-Systems repository.

The two mechanisms under study are the long-poll coordinator
(`Long Polling` backend, Express `/status` handler plus the
`startEmitter` mutation loop) and the rate-limiter family
(`tokenBucket.js`, `fixedWindow.js`, `slidingWindow.js`,
`Rate Limiting/Backend/distributedRedis.js`).  Each JavaScript class is
embedded shallowly: fields become structure fields, `Date.now()` becomes
an explicit time argument, JavaScript numbers become `ℚ` (token bucket,
whose token count is fractional) or `ℤ` (millisecond timestamps).
-/

namespace RateLimit

/-- State of `class TokenBucket` from `tokenBucket.js`: `capacity`
(maximum tokens), `tokens` (current, fractional), `refillRate`
(tokens per second), `lastRefill` (ms timestamp of last refill). -/
structure TokenBucket where
  capacity : ℚ
  tokens : ℚ
  refillRate : ℚ
  lastRefill : ℚ
  deriving DecidableEq, Repr

/-- `new TokenBucket(capacity, refillRate)` at clock value `now`:
the bucket starts full (`this.tokens = capacity`). -/
def TokenBucket.init (capacity refillRate now : ℚ) : TokenBucket :=
  { capacity := capacity, tokens := capacity, refillRate := refillRate,
    lastRefill := now }

/-- `TokenBucket.refill()`: `elapsed = (now - lastRefill) / 1000`;
`tokens = min(capacity, tokens + elapsed * refillRate)`; `lastRefill = now`. -/
def TokenBucket.refill (b : TokenBucket) (now : ℚ) : TokenBucket :=
  let elapsed := (now - b.lastRefill) / 1000
  let tokensToAdd := elapsed * b.refillRate
  { b with tokens := min b.capacity (b.tokens + tokensToAdd), lastRefill := now }

/-- Result record returned by `TokenBucket.consume()`.  `remaining` is the
`Math.floor` of the tokens left; `retryAfter` is present only on denial. -/
structure ConsumeResult where
  allowed : Bool
  remaining : ℤ
  retryAfter : Option ℤ
  deriving DecidableEq, Repr

/-- `TokenBucket.consume()`: refill, then if `tokens >= 1` subtract one and
allow with `remaining = Math.floor(tokens)`, else deny with `remaining = 0`
and `retryAfter = Math.ceil((1 - tokens) / refillRate)`. -/
def TokenBucket.consume (b : TokenBucket) (now : ℚ) :
    TokenBucket × ConsumeResult :=
  let b1 := b.refill now
  if 1 ≤ b1.tokens then
    ({ b1 with tokens := b1.tokens - 1 },
     { allowed := true, remaining := ⌊b1.tokens - 1⌋, retryAfter := none })
  else
    (b1,
     { allowed := false, remaining := 0,
       retryAfter := some ⌈(1 - b1.tokens) / b1.refillRate⌉ })

/-- Fold a bucket through a sequence of `consume` calls at the given clock
values, keeping only the state. -/
def TokenBucket.run (b : TokenBucket) (ts : List ℚ) : TokenBucket :=
  ts.foldl (fun s t => (s.consume t).1) b

/-- Fold a bucket through a sequence of `consume` calls, collecting the
result record of every call. -/
def TokenBucket.results (b : TokenBucket) : List ℚ → List ConsumeResult
  | [] => []
  | t :: ts =>
      let p := b.consume t
      p.2 :: p.1.results ts

/-- Bounds invariant for a token bucket: `0 ≤ tokens ≤ capacity`. -/
def TokenBucket.Inv (b : TokenBucket) : Prop :=
  0 ≤ b.tokens ∧ b.tokens ≤ b.capacity

lemma TokenBucket.refill_inv (b : TokenBucket) (now : ℚ)
    (h : b.Inv) (hrate : 0 ≤ b.refillRate) (hc : b.lastRefill ≤ now) :
    (b.refill now).Inv := by
  obtain ⟨h0, hcap⟩ := h
  constructor
  · have hadd : 0 ≤ (now - b.lastRefill) / 1000 * b.refillRate := by
      apply mul_nonneg _ hrate
      have : (0 : ℚ) ≤ now - b.lastRefill := by linarith
      positivity
    simp only [refill, le_min_iff]
    constructor
    · linarith
    · linarith
  · simp only [refill]
    exact min_le_left _ _

lemma TokenBucket.consume_inv (b : TokenBucket) (now : ℚ)
    (h : b.Inv) (hrate : 0 ≤ b.refillRate) (hc : b.lastRefill ≤ now) :
    ((b.consume now).1).Inv := by
  have hr := b.refill_inv now h hrate hc
  obtain ⟨h0, hcap⟩ := hr
  simp only [consume]
  split
  · refine ⟨?_, ?_⟩ <;> dsimp only <;> linarith
  · exact ⟨h0, hcap⟩

lemma TokenBucket.consume_capacity (b : TokenBucket) (now : ℚ) :
    (b.consume now).1.capacity = b.capacity := by
  simp only [consume]
  split <;> simp [refill]

lemma TokenBucket.consume_rate (b : TokenBucket) (now : ℚ) :
    (b.consume now).1.refillRate = b.refillRate := by
  simp only [consume]
  split <;> simp [refill]

lemma TokenBucket.consume_lastRefill (b : TokenBucket) (now : ℚ) :
    (b.consume now).1.lastRefill = now := by
  simp only [consume]
  split <;> simp [refill]

lemma TokenBucket.run_cons (b : TokenBucket) (t : ℚ) (ts : List ℚ) :
    b.run (t :: ts) = ((b.consume t).1).run ts := rfl

lemma TokenBucket.run_inv (ts : List ℚ) (b : TokenBucket)
    (h : b.Inv) (hrate : 0 ≤ b.refillRate)
    (hchain : List.Chain (· ≤ ·) b.lastRefill ts) :
    (b.run ts).Inv ∧ (b.run ts).capacity = b.capacity := by
  induction ts generalizing b with
  | nil => exact ⟨h, rfl⟩
  | cons t ts ih =>
      rcases hchain with _ | ⟨hle, hchain⟩
      have h1 := b.consume_inv t h hrate hle
      have h2 : ((b.consume t).1).refillRate = b.refillRate := b.consume_rate t
      have h3 : ((b.consume t).1).lastRefill = t := b.consume_lastRefill t
      have hch : List.Chain (· ≤ ·) ((b.consume t).1.lastRefill) ts := by
        rw [h3]; exact hchain
      have hres := ih (b.consume t).1 h1 (by rw [h2]; exact hrate) hch
      rw [TokenBucket.run_cons]
      exact ⟨hres.1, hres.2.trans (b.consume_capacity t)⟩

end RateLimit

namespace RateLimit

/-- C4: the token-bucket bounds invariant.  Starting from
`new TokenBucket(capacity, refillRate)` and running any sequence of
`consume` calls along a non-decreasing clock, `0 ≤ tokens ≤ capacity`
holds afterwards; moreover the refill step never raises the token count
above `capacity` and is monotone in the elapsed time. -/
theorem C4_token_bucket_bounds (capacity refillRate t0 : ℚ) (ts : List ℚ)
    (hcap : 0 ≤ capacity) (hrate : 0 ≤ refillRate)
    (hchain : List.Chain (· ≤ ·) t0 ts) :
    (0 ≤ ((TokenBucket.init capacity refillRate t0).run ts).tokens ∧
      ((TokenBucket.init capacity refillRate t0).run ts).tokens ≤ capacity) ∧
    (∀ b : TokenBucket, ∀ now : ℚ, (b.refill now).tokens ≤ b.capacity) ∧
    (∀ b : TokenBucket, 0 ≤ b.refillRate → ∀ t1 t2 : ℚ, t1 ≤ t2 →
      (b.refill t1).tokens ≤ (b.refill t2).tokens) := by
  refine ⟨?_, ?_, ?_⟩
  · have hinv : (TokenBucket.init capacity refillRate t0).Inv :=
      ⟨hcap, le_refl _⟩
    have hrun := TokenBucket.run_inv ts (TokenBucket.init capacity refillRate t0)
      hinv hrate hchain
    refine ⟨hrun.1.1, ?_⟩
    have h := hrun.1.2
    rw [hrun.2] at h
    exact h
  · intro b now
    simp [TokenBucket.refill]
  · intro b hb t1 t2 h12
    simp only [TokenBucket.refill]
    apply min_le_min (le_refl _)
    have : (t1 - b.lastRefill) / 1000 * b.refillRate ≤
        (t2 - b.lastRefill) / 1000 * b.refillRate := by
      apply mul_le_mul_of_nonneg_right _ hb
      have : t1 - b.lastRefill ≤ t2 - b.lastRefill := by linarith
      linarith
    linarith

/-- Witness for C4 at a concrete schedule. -/
theorem C4_token_bucket_bounds_witness :
    0 ≤ ((TokenBucket.init 5 1 0).run [0, 0, 2000]).tokens ∧
      ((TokenBucket.init 5 1 0).run [0, 0, 2000]).tokens ≤ 5 :=
  (C4_token_bucket_bounds 5 1 0 [0, 0, 2000] (by norm_num) (by norm_num)
    (by norm_num [List.chain_cons])).1

end RateLimit

namespace RateLimit

/-- C6: for every `consume` call, after refill: with at least one token the
call subtracts exactly one token and allows with
`remaining = Math.floor(tokens)`; otherwise it denies with `remaining = 0`
and `retryAfter = Math.ceil((1 - tokens) / refillRate)`.  With
`capacity = 5, refillRate = 1`, five rapid calls are allowed, the sixth is
denied with `retryAfter = 1`, and a call one second later is allowed. -/
theorem C6_token_bucket_consume :
    (∀ b : TokenBucket, ∀ now : ℚ,
      (1 ≤ (b.refill now).tokens →
        (b.consume now).2 = ⟨true, ⌊(b.refill now).tokens - 1⌋, none⟩ ∧
        (b.consume now).1.tokens = (b.refill now).tokens - 1) ∧
      (¬ 1 ≤ (b.refill now).tokens →
        (b.consume now).2 =
          ⟨false, 0, some ⌈(1 - (b.refill now).tokens) / b.refillRate⌉⟩)) ∧
    ((TokenBucket.init 5 1 0).results [0, 0, 0, 0, 0, 0, 1000]).map
        (fun r => r.allowed) = [true, true, true, true, true, false, true] ∧
    ((TokenBucket.init 5 1 0).results [0, 0, 0, 0, 0, 0, 1000]).get? 5 =
      some ⟨false, 0, some 1⟩ := by
  refine ⟨?_, ?_, ?_⟩
  · intro b now
    constructor
    · intro h
      simp only [TokenBucket.consume]
      rw [if_pos h]
      exact ⟨rfl, rfl⟩
    · intro h
      simp only [TokenBucket.consume]
      rw [if_neg h]
      rfl
  · norm_num [TokenBucket.results, TokenBucket.consume, TokenBucket.refill,
      TokenBucket.init, min_def]
  · norm_num [TokenBucket.results, TokenBucket.consume, TokenBucket.refill,
      TokenBucket.init, min_def]

/-- Witness for C6: the first call on a fresh `capacity = 5` bucket takes the
allowed branch, leaving 4 tokens. -/
theorem C6_token_bucket_consume_witness :
    ((TokenBucket.init 5 1 0).consume 0).1.tokens =
      ((TokenBucket.init 5 1 0).refill 0).tokens - 1 :=
  ((C6_token_bucket_consume.1 (TokenBucket.init 5 1 0) 0).1
    (by norm_num [TokenBucket.refill, TokenBucket.init, min_def])).2

end RateLimit

namespace RateLimit

/-- State of `class FixedWindow` from `fixedWindow.js`. -/
structure FixedWindow where
  maxRequests : ℕ
  windowMs : ℤ
  count : ℕ
  windowStart : ℤ
  deriving DecidableEq, Repr

/-- `FixedWindow.checkAndResetWindow()`: if `now - windowStart >= windowMs`,
reset `count = 0` and `windowStart = now`. -/
def FixedWindow.checkAndResetWindow (f : FixedWindow) (now : ℤ) : FixedWindow :=
  let elapsed := now - f.windowStart
  if f.windowMs ≤ elapsed then { f with count := 0, windowStart := now } else f

/-- Result record returned by `FixedWindow.allow()` and
`SlidingWindow.allow()`. -/
structure AllowResult where
  allowed : Bool
  remaining : ℤ
  resetAt : ℤ
  retryAfter : Option ℤ
  deriving DecidableEq, Repr

/-- `FixedWindow.allow()`: reset the window if stale, then admit while
`count < maxRequests`, else deny with
`retryAfter = Math.ceil((resetAt - now) / 1000)`. -/
def FixedWindow.allow (f : FixedWindow) (now : ℤ) : FixedWindow × AllowResult :=
  let f1 := f.checkAndResetWindow now
  if f1.count < f1.maxRequests then
    ({ f1 with count := f1.count + 1 },
     ⟨true, (f1.maxRequests : ℤ) - (f1.count + 1),
      f1.windowStart + f1.windowMs, none⟩)
  else
    (f1,
     ⟨false, 0, f1.windowStart + f1.windowMs,
      some ⌈((f1.windowStart + f1.windowMs - now : ℤ) : ℚ) / 1000⌉⟩)

/-- Fold a fixed window through a sequence of `allow` calls, state only. -/
def FixedWindow.run (f : FixedWindow) (ts : List ℤ) : FixedWindow :=
  ts.foldl (fun s t => (s.allow t).1) f

/-- Fold a fixed window through a sequence of `allow` calls, collecting the
result record of every call. -/
def FixedWindow.results (f : FixedWindow) : List ℤ → List AllowResult
  | [] => []
  | t :: ts =>
      let p := f.allow t
      p.2 :: p.1.results ts

lemma FixedWindow.results_append (f : FixedWindow) (xs ys : List ℤ) :
    f.results (xs ++ ys) = f.results xs ++ (f.run xs).results ys := by
  induction xs generalizing f with
  | nil => rfl
  | cons x xs ih =>
      have h1 : f.results ((x :: xs) ++ ys) =
          (f.allow x).2 :: ((f.allow x).1).results (xs ++ ys) := rfl
      rw [h1, ih]
      rfl

/-- After `checkAndResetWindow` the elapsed time is below `windowMs`
(provided the window length is positive). -/
lemma FixedWindow.reset_norm (f : FixedWindow) (now : ℤ) (hW : 0 < f.windowMs) :
    now - (f.checkAndResetWindow now).windowStart < f.windowMs := by
  simp only [checkAndResetWindow]
  split
  · show now - now < f.windowMs
    omega
  · omega

/-- A window state already inside its window is untouched by
`checkAndResetWindow`. -/
lemma FixedWindow.reset_id (f : FixedWindow) (now : ℤ)
    (h : now - f.windowStart < f.windowMs) :
    f.checkAndResetWindow now = f := by
  simp only [checkAndResetWindow]
  rw [if_neg (by omega)]

/-- A burst of `k` calls at one instant `t`, starting from a state that is
already normalized at `t` and has `k` slots left, is admitted entirely. -/
lemma FixedWindow.burst_allowed (k : ℕ) (f : FixedWindow) (t : ℤ)
    (hW : 0 < f.windowMs)
    (hnorm : t - f.windowStart < f.windowMs)
    (hcap : f.count + k ≤ f.maxRequests) :
    (∀ r ∈ f.results (List.replicate k t), r.allowed = true) ∧
    f.run (List.replicate k t) = { f with count := f.count + k } := by
  induction k generalizing f with
  | zero => exact ⟨by simp [results], by simp [run]⟩
  | succ k ih =>
      have hallow : f.allow t =
          ({ f with count := f.count + 1 },
           ⟨true, (f.maxRequests : ℤ) - (f.count + 1),
            f.windowStart + f.windowMs, none⟩) := by
        unfold allow
        rw [f.reset_id t hnorm, if_pos (by omega)]
      have hrec := ih { f with count := f.count + 1 } hW hnorm
        (by show f.count + 1 + k ≤ f.maxRequests; omega)
      constructor
      · intro r hr
        rw [List.replicate_succ] at hr
        have hr2 : r ∈ (f.allow t).2 :: ((f.allow t).1).results (List.replicate k t) := hr
        rw [hallow] at hr2
        rcases List.mem_cons.mp hr2 with h | h
        · rw [h]
        · exact hrec.1 r h
      · show (f.allow t).1.run (List.replicate k t) = _
        rw [hallow, hrec.2]
        have hk : f.count + 1 + k = f.count + (k + 1) := by omega
        simp only []
        rw [hk]

/-- Number of admitted results in a result list. -/
def countAllowed : List AllowResult → ℕ
  | [] => 0
  | r :: rs => (cond r.allowed 1 0) + countAllowed rs

lemma countAllowed_cons (r : AllowResult) (rs : List AllowResult) :
    countAllowed (r :: rs) = (cond r.allowed 1 0) + countAllowed rs := rfl

/-- Counting allowed results: with no window reset possible (every call time
stays inside the current window), no more than the remaining capacity is
admitted. -/
lemma FixedWindow.in_window_bound (ts : List ℤ) (f : FixedWindow)
    (hin : ∀ t ∈ ts, t - f.windowStart < f.windowMs)
    (hc : f.count ≤ f.maxRequests) :
    countAllowed (f.results ts) + f.count ≤ f.maxRequests := by
  induction ts generalizing f with
  | nil => simpa [results, countAllowed] using hc
  | cons t ts ih =>
      have hnorm := f.reset_id t (hin t (by simp))
      have hres : f.results (t :: ts) =
          (f.allow t).2 :: ((f.allow t).1).results ts := rfl
      by_cases hlt : f.count < f.maxRequests
      · have hallow : f.allow t =
            ({ f with count := f.count + 1 },
             ⟨true, (f.maxRequests : ℤ) - (f.count + 1),
              f.windowStart + f.windowMs, none⟩) := by
          simp only [allow]
          rw [hnorm, if_pos hlt]
        have hrec := ih { f with count := f.count + 1 }
          (by intro u hu; exact hin u (by simp [hu]))
          (by show f.count + 1 ≤ f.maxRequests; omega)
        rw [hres, hallow, countAllowed_cons]
        show 1 + countAllowed (({ f with count := f.count + 1 } :
          FixedWindow).results ts) + f.count ≤ f.maxRequests
        have hc2 : countAllowed (({ f with count := f.count + 1 } :
            FixedWindow).results ts) + (f.count + 1) ≤ f.maxRequests := hrec
        omega
      · have hallow : f.allow t =
            (f, ⟨false, 0, f.windowStart + f.windowMs,
              some ⌈((f.windowStart + f.windowMs - t : ℤ) : ℚ) / 1000⌉⟩) := by
          simp only [allow]
          rw [hnorm, if_neg hlt]
        have hrec := ih f (by intro u hu; exact hin u (by simp [hu])) hc
        rw [hres, hallow, countAllowed_cons]
        show 0 + countAllowed (f.results ts) + f.count ≤ f.maxRequests
        omega

end RateLimit

namespace RateLimit

/-- C5: for the fixed-window limiter with `maxRequests = N` there is a call
schedule issuing `N` requests just before a window boundary and `N` just
after it in which all `2N` calls are admitted, all within one
`windowMs`-length span; and within a single window (no boundary crossing)
at most `maxRequests` calls are ever admitted. -/
theorem C5_fixed_window_boundary_burst (N : ℕ) (W : ℤ) (hW : 0 < W) :
    (∀ r ∈ (FixedWindow.mk N W 0 0).results
        (List.replicate N (W - 1) ++ List.replicate N W), r.allowed = true) ∧
    (List.replicate N (W - 1) ++ List.replicate N W).length = 2 * N ∧
    (∀ t ∈ List.replicate N (W - 1) ++ List.replicate N W,
      W - 1 ≤ t ∧ t ≤ (W - 1) + W) ∧
    (∀ (f : FixedWindow) (ts : List ℤ),
      (∀ t ∈ ts, t - f.windowStart < f.windowMs) →
      f.count ≤ f.maxRequests →
      countAllowed (f.results ts) + f.count ≤ f.maxRequests) := by
  refine ⟨?_, ?_, ?_, ?_⟩
  · have hburst1 := FixedWindow.burst_allowed N (FixedWindow.mk N W 0 0) (W - 1)
      hW (by show W - 1 - 0 < W; omega) (by show 0 + N ≤ N; omega)
    intro r hr
    rw [FixedWindow.results_append] at hr
    rcases List.mem_append.mp hr with h | h
    · exact hburst1.1 r h
    · rw [hburst1.2] at h
      cases N with
      | zero => simp [FixedWindow.results] at h
      | succ m =>
          simp only [Nat.zero_add] at h
          rw [List.replicate_succ] at h
          have hcons : (FixedWindow.mk (m + 1) W (m + 1) 0).results
              (W :: List.replicate m W) =
              ((FixedWindow.mk (m + 1) W (m + 1) 0).allow W).2 ::
              (((FixedWindow.mk (m + 1) W (m + 1) 0).allow W).1).results
                (List.replicate m W) := rfl
          rw [hcons] at h
          have h1 : ((FixedWindow.mk (m + 1) W (m + 1) 0).allow W).1 =
              FixedWindow.mk (m + 1) W 1 W := by
            simp only [FixedWindow.allow, FixedWindow.checkAndResetWindow]
            rw [if_pos (show (W : ℤ) ≤ W - 0 by omega)]
            rw [if_pos (show (0 : ℕ) < m + 1 by omega)]
          have h2 : ((FixedWindow.mk (m + 1) W (m + 1) 0).allow W).2.allowed =
              true := by
            simp only [FixedWindow.allow, FixedWindow.checkAndResetWindow]
            rw [if_pos (show (W : ℤ) ≤ W - 0 by omega)]
            rw [if_pos (show (0 : ℕ) < m + 1 by omega)]
          rcases List.mem_cons.mp h with h | h
          · rw [h]; exact h2
          · rw [h1] at h
            exact (FixedWindow.burst_allowed m (FixedWindow.mk (m + 1) W 1 W) W
              hW (by show W - W < W; omega)
              (by show 1 + m ≤ m + 1; omega)).1 r h
  · simp [List.length_append]
    omega
  · intro t ht
    rcases List.mem_append.mp ht with h | h
    · have := List.eq_of_mem_replicate h
      omega
    · have := List.eq_of_mem_replicate h
      omega
  · intro f ts h1 h2
    exact FixedWindow.in_window_bound ts f h1 h2

/-- Witness for C5 with `N = 2, W = 100`: all four calls of the straddling
schedule are admitted. -/
theorem C5_fixed_window_boundary_burst_witness :
    ((FixedWindow.mk 2 100 0 0).results
      (List.replicate 2 (100 - 1) ++ List.replicate 2 100)).all
      (fun r => r.allowed) = true :=
  List.all_eq_true.mpr
    (fun r hr => (C5_fixed_window_boundary_burst 2 100 (by norm_num)).1 r hr)

end RateLimit

namespace RateLimit

/-- State of `class SlidingWindow` from `slidingWindow.js`:
`requests` is the array of request timestamps. -/
structure SlidingWindow where
  maxRequests : ℕ
  windowMs : ℤ
  requests : List ℤ
  deriving DecidableEq, Repr

/-- `SlidingWindow.cleanup()`: `cutoff = now - windowMs`;
`requests = requests.filter(timestamp => timestamp > cutoff)`. -/
def SlidingWindow.cleanup (sw : SlidingWindow) (now : ℤ) : SlidingWindow :=
  let cutoff := now - sw.windowMs
  { sw with requests := sw.requests.filter (fun timestamp => cutoff < timestamp) }

/-- `SlidingWindow.allow()`: cleanup, then if fewer than `maxRequests`
timestamps remain, push `now` and allow; else deny with
`retryAfter = Math.ceil((oldest + windowMs - now) / 1000)`. -/
def SlidingWindow.allow (sw : SlidingWindow) (now : ℤ) :
    SlidingWindow × AllowResult :=
  let sw1 := sw.cleanup now
  if sw1.requests.length < sw1.maxRequests then
    ({ sw1 with requests := sw1.requests ++ [now] },
     ⟨true, (sw1.maxRequests : ℤ) - (sw1.requests.length + 1),
      (sw1.requests.headD now) + sw1.windowMs, none⟩)
  else
    let oldestRequest := sw1.requests.headD now
    (sw1,
     ⟨false, 0, oldestRequest + sw1.windowMs,
      some ⌈((oldestRequest + sw1.windowMs - now : ℤ) : ℚ) / 1000⌉⟩)

end RateLimit

namespace RateLimit

/-- C7 counterexample: the claim says a request issued exactly
`windowMs` ago still counts as inside the window; the code's
`timestamp > cutoff` filter purges it.  With `windowMs = 1000`, a
timestamp at `0` is dropped at `now = 1000`, and with `maxRequests = 1`
the next call is admitted where the claim's closed-interval semantics
would deny it. -/
theorem C7_sliding_window_boundary_counterexample :
    ((SlidingWindow.mk 2 1000 [0]).cleanup 1000).requests = [] ∧
    (((SlidingWindow.mk 1 1000 [0]).allow 1000).2).allowed = true := by
  constructor
  · rfl
  · rfl

/-- C7 (amended): before every admission decision the sliding window purges
all timestamps with `timestamp ≤ now - windowMs` (the half-open window
`(now - windowMs, now]`: a request issued exactly `windowMs` ago is
purged), and the call is admitted iff the purged count is below
`maxRequests`. -/
theorem C7_sliding_window_purge_amended (sw : SlidingWindow) (now : ℤ)
    (h : ∀ u ∈ sw.requests, u ≤ now) :
    (∀ u ∈ (sw.cleanup now).requests, now - sw.windowMs < u ∧ u ≤ now) ∧
    (∀ u ∈ sw.requests, u ≤ now - sw.windowMs →
      u ∉ (sw.cleanup now).requests) ∧
    ((((sw.allow now).2).allowed = true) ↔
      (sw.cleanup now).requests.length < sw.maxRequests) := by
  refine ⟨?_, ?_, ?_⟩
  · intro u hu
    simp only [SlidingWindow.cleanup, List.mem_filter] at hu
    exact ⟨by simpa using hu.2, h u hu.1⟩
  · intro u hu hle
    simp only [SlidingWindow.cleanup, List.mem_filter]
    intro hcontra
    have := hcontra.2
    simp only [decide_eq_true_eq] at this
    omega
  · have hcl : (sw.cleanup now).maxRequests = sw.maxRequests := rfl
    simp only [SlidingWindow.allow]
    split
    · next hlt => simpa using (hcl ▸ hlt)
    · next hge => simpa using Nat.le_of_not_lt (hcl ▸ hge)

/-- Witness for C7 (amended) at a concrete window state. -/
theorem C7_sliding_window_purge_amended_witness :
    (((SlidingWindow.mk 2 1000 [500]).allow 1000).2).allowed = true ↔
      ((SlidingWindow.mk 2 1000 [500]).cleanup 1000).requests.length < 2 :=
  (C7_sliding_window_purge_amended (SlidingWindow.mk 2 1000 [500]) 1000
    (by intro u hu; simp at hu; omega)).2.2

end RateLimit

namespace LongPoll

/-- Decimal digit value of a character, if any. -/
def digitVal? (c : Char) : Option ℕ :=
  if c.isDigit then some (c.toNat - 48) else none

/-- Accumulating decimal parse; fails on the first non-digit. -/
def parseNatAux : List Char → ℕ → Option ℕ
  | [], acc => some acc
  | c :: cs, acc =>
      match digitVal? c with
      | none => none
      | some d => parseNatAux cs (acc * 10 + d)

/-- JavaScript `Number()` coercion restricted to the integer fragment used
by the demo (decimal integer strings, optional leading minus; the empty
string coerces to `0`; anything else is `NaN`, modelled as `none`). -/
def jsToNumber (s : String) : Option ℤ :=
  match s.data with
  | [] => some 0
  | '-' :: rest =>
      if rest.isEmpty then none
      else (parseNatAux rest 0).map (fun n => -(n : ℤ))
  | cs => (parseNatAux cs 0).map (fun n => (n : ℤ))

/-- The JavaScript comparison `updatedAt > last_updated` where
`last_updated` is a query-parameter string: the string is coerced with
`Number()`, and any comparison against `NaN` is `false`. -/
def jsGtNum (updatedAt : ℤ) (s : String) : Bool :=
  match jsToNumber s with
  | none => false
  | some n => decide (n < updatedAt)

/-- JavaScript truthiness test `!eventId` for an optional string:
missing or empty is falsy. -/
def jsFalsyStr (s : Option String) : Bool :=
  match s with
  | none => true
  | some v => v = ""

/-- The four exits of the `GET /status` handler: `missingParams` is the
500 branch (`!eventId || last_updated === undefined`), `notFound` the 404
branch, `immediateData` the synchronous 200, and `registeredWait` the
deferred branch that creates a `requestObj`, starts a 30s timer and adds
the wait to `eventReqs`. -/
inductive HandlerOutcome
  | missingParams
  | notFound
  | immediateData
  | registeredWait
  deriving DecidableEq, Repr

/-- Shape of the `GET /status` handler from the Long Polling backend:
`dbHas` says whether `db[eventId]` exists and `updatedAt` is its stored
timestamp; `eventId` and `lastUpdated` are the raw query parameters. -/
def statusHandler (dbHas : Bool) (updatedAt : ℤ)
    (eventId : Option String) (lastUpdated : Option String) : HandlerOutcome :=
  if jsFalsyStr eventId || lastUpdated.isNone then HandlerOutcome.missingParams
  else if dbHas then
    if jsGtNum updatedAt (lastUpdated.getD "") then HandlerOutcome.immediateData
    else HandlerOutcome.registeredWait
  else HandlerOutcome.notFound

end LongPoll

namespace LongPoll

/-- C8 counterexample: a present but non-numeric `last_updated` is *not*
rejected with a 4xx.  `Number("abc")` is `NaN`, the comparison
`updatedAt > NaN` is `false`, and the handler takes the deferred branch:
a Pending Wait *is* registered and a timer *is* created. -/
theorem C8_malformed_lastSeen_counterexample :
    statusHandler true 100 (some "EVENT#00") (some "abc") =
      HandlerOutcome.registeredWait ∧
    statusHandler true 100 (some "EVENT#00") (some "abc") ≠
      HandlerOutcome.missingParams := by
  constructor
  · decide
  · decide

/-- C8 (amended): for any known `eventId` and any present, non-numeric
`last_updated`, the handler does not return an error at all: the JS
comparison against `NaN` evaluates false and the request is parked as a
Pending Wait with a timer (later resolved by mutation or timeout). -/
theorem C8_malformed_lastSeen_amended (updatedAt : ℤ) (eid lu : String)
    (hid : eid ≠ "") (hlu : jsToNumber lu = none) :
    statusHandler true updatedAt (some eid) (some lu) =
      HandlerOutcome.registeredWait := by
  simp [statusHandler, jsFalsyStr, jsGtNum, hid, hlu]

/-- Witness for C8 (amended) at a concrete malformed parameter. -/
theorem C8_malformed_lastSeen_amended_witness :
    statusHandler true 7 (some "EVENT#01") (some "xyz") =
      HandlerOutcome.registeredWait :=
  C8_malformed_lastSeen_amended 7 "EVENT#01" "xyz" (by decide) (by decide)

end LongPoll

namespace LongPoll

/-- Lifecycle status of one long-poll wait (one `requestObj` from the
deferred branch of `GET /status`).  `dataSent` is the 200 pushed by the
`startEmitter` sweep, `timedOut` the 408 from the 30s `setTimeout`
callback, `cancelled` the silent removal performed by the
`req.on('close')` handler while the wait was still unanswered. -/
inductive WStatus
  | unregistered
  | pending
  | dataSent
  | timedOut
  | cancelled
  deriving DecidableEq, Repr

/-- Whether a status is a terminal resolution. -/
def WStatus.isTerminal : WStatus → Bool
  | .dataSent => true
  | .timedOut => true
  | .cancelled => true
  | _ => false

/-- Global state of the long-poll backend for one resource (`db[eventId]`
plus the `eventReqs` entry for that resource).  Waits are named by `ℕ`.
`score`/`updatedAt` mirror `db[eventId]`; `clock` is the last observed
`Date.now()` value; `timer w` says the wait's `setTimeout` handle is
still armed (not yet cleared and not yet fired); `inSet w` says the
`requestObj` is in the `eventReqs` set; `closed w` says the connection's
`close` event has fired; `respData w` records the `(score, updatedAt)`
payload of a data response, if one was sent. -/
structure LPState where
  score : ℤ
  updatedAt : ℤ
  clock : ℤ
  status : ℕ → WStatus
  timer : ℕ → Bool
  inSet : ℕ → Bool
  closed : ℕ → Bool
  respData : ℕ → Option (ℤ × ℤ)

/-- Atomic events of the long-poll backend, each one callback run of the
single-threaded event loop: `register w lastSeen` is the deferred branch
of `GET /status` for a fresh wait `w`; `mutate delta t` is one firing of
the `startEmitter` callback at clock time `t` (`score += delta`,
`updatedAt = Date.now()`, sweep of the waiter set); `timerFire w` is the
wait's 30s `setTimeout` callback; `close w` is the `req.on('close')`
handler. -/
inductive LPEvent
  | register (w : ℕ) (lastSeen : ℤ)
  | mutate (delta : ℤ) (t : ℤ)
  | timerFire (w : ℕ)
  | close (w : ℕ)
  deriving DecidableEq, Repr

/-- When an event can fire: a wait registers once, on the deferred branch
(`updatedAt > lastSeen` false); the emitter fires at a clock value that
never goes backwards; a `setTimeout` callback runs only while its handle
is armed (`clearTimeout` prevents it); a connection closes once, any time
after registration. -/
def lpEnabled (s : LPState) : LPEvent → Prop
  | .register w lastSeen =>
      s.status w = WStatus.unregistered ∧ ¬ lastSeen < s.updatedAt
  | .mutate _ t => s.clock ≤ t
  | .timerFire w => s.timer w = true
  | .close w => s.status w ≠ WStatus.unregistered ∧ s.closed w = false

/-- One atomic event of the backend, straight from `index.js`:

* `register`: create `requestObj`, start its timer, add it to the set
  (lines 77–100 of the handler);
* `mutate`: `db[eventId].score += delta; db[eventId].updatedAt = Date.now()`,
  then for every waiter in the set `clearTimeout` and, if no headers were
  sent yet, respond 200 with the fresh item; finally `pendingReqs.clear()`;
* `timerFire`: the timeout callback removes the wait from the set and, if
  no headers were sent, responds 408;
* `close`: `clearTimeout` and removal from the set, no response; a wait
  closed while still pending is thereby silently cancelled. -/
def lpStep (s : LPState) : LPEvent → LPState
  | .register w _ =>
      { s with status := Function.update s.status w WStatus.pending,
               timer := Function.update s.timer w true,
               inSet := Function.update s.inSet w true }
  | .mutate delta t =>
      { score := s.score + delta, updatedAt := t, clock := t,
        status := fun v =>
          if s.inSet v = true ∧ s.status v = WStatus.pending then
            WStatus.dataSent
          else s.status v,
        timer := fun v => if s.inSet v = true then false else s.timer v,
        inSet := fun _ => false,
        closed := s.closed,
        respData := fun v =>
          if s.inSet v = true ∧ s.status v = WStatus.pending then
            some (s.score + delta, t)
          else s.respData v }
  | .timerFire w =>
      { s with timer := Function.update s.timer w false,
               inSet := Function.update s.inSet w false,
               status := fun v =>
                 if v = w ∧ s.status v = WStatus.pending then WStatus.timedOut
                 else s.status v }
  | .close w =>
      { s with closed := Function.update s.closed w true,
               timer := Function.update s.timer w false,
               inSet := Function.update s.inSet w false,
               status := fun v =>
                 if v = w ∧ s.status v = WStatus.pending then WStatus.cancelled
                 else s.status v }

/-- Initial state: the resource exists with `score 0` and some initial
`updatedAt` (taken as clock origin 0), no waits. -/
def lpInit : LPState :=
  { score := 0, updatedAt := 0, clock := 0,
    status := fun _ => WStatus.unregistered, timer := fun _ => false,
    inSet := fun _ => false, closed := fun _ => false,
    respData := fun _ => none }

/-- `lpValid s tr s'`: the event list `tr` is a run of the backend from
`s` to `s'` in which every event was enabled when it fired. -/
inductive lpValid : LPState → List LPEvent → LPState → Prop
  | nil (s : LPState) : lpValid s [] s
  | cons {s : LPState} {e : LPEvent} {tr : List LPEvent} {s' : LPState}
      (he : lpEnabled s e) (htr : lpValid (lpStep s e) tr s') :
      lpValid s (e :: tr) s'

/-- Does event `e`, fired in state `s`, resolve wait `w`?  A mutation
resolves every pending wait in the set; a timer firing resolves its own
wait if still unanswered (the 408); a close resolves its own wait if
still unanswered (silent cancellation). -/
def lpResolves (s : LPState) (e : LPEvent) (w : ℕ) : Bool :=
  match e with
  | .register _ _ => false
  | .mutate _ _ => s.inSet w && decide (s.status w = WStatus.pending)
  | .timerFire v => decide (v = w) && decide (s.status w = WStatus.pending)
  | .close v => decide (v = w) && decide (s.status w = WStatus.pending)

/-- Number of events in a run that resolve wait `w`. -/
def lpResolveCount (s : LPState) : List LPEvent → ℕ → ℕ
  | [], _ => 0
  | e :: tr, w =>
      (cond (lpResolves s e w) 1 0) + lpResolveCount (lpStep s e) tr w

end LongPoll

namespace LongPoll

lemma lpResolves_pending {s : LPState} {e : LPEvent} {w : ℕ}
    (h : lpResolves s e w = true) : s.status w = WStatus.pending := by
  cases e with
  | register v l => simp [lpResolves] at h
  | mutate d t => simp [lpResolves] at h; exact h.2
  | timerFire v => simp [lpResolves] at h; exact h.2
  | close v => simp [lpResolves] at h; exact h.2

lemma lpStep_status_of_not_resolves {s : LPState} {e : LPEvent} {w : ℕ}
    (h : lpResolves s e w = false) :
    (lpStep s e).status w = s.status w ∨
    (lpStep s e).status w = WStatus.pending := by
  cases e with
  | register v l =>
      by_cases hvw : w = v
      · right; simp [lpStep, hvw]
      · left; simp [lpStep, Function.update_apply, hvw]
  | mutate d t =>
      left
      show (if s.inSet w = true ∧ s.status w = WStatus.pending then
        WStatus.dataSent else s.status w) = s.status w
      rw [if_neg]
      intro hc
      have hres : lpResolves s (LPEvent.mutate d t) w = true := by
        simp [lpResolves, hc.1, hc.2]
      rw [h] at hres
      exact Bool.false_ne_true hres
  | timerFire v =>
      left
      show (if w = v ∧ s.status w = WStatus.pending then
        WStatus.timedOut else s.status w) = s.status w
      rw [if_neg]
      intro hc
      have hres : lpResolves s (LPEvent.timerFire v) w = true := by
        simp [lpResolves, hc.1.symm, hc.2]
      rw [h] at hres
      exact Bool.false_ne_true hres
  | close v =>
      left
      show (if w = v ∧ s.status w = WStatus.pending then
        WStatus.cancelled else s.status w) = s.status w
      rw [if_neg]
      intro hc
      have hres : lpResolves s (LPEvent.close v) w = true := by
        simp [lpResolves, hc.1.symm, hc.2]
      rw [h] at hres
      exact Bool.false_ne_true hres

lemma lpStep_status_of_terminal {s : LPState} {e : LPEvent} {w : ℕ}
    (ht : (s.status w).isTerminal = true) (he : lpEnabled s e) :
    (lpStep s e).status w = s.status w := by
  have hnp : s.status w ≠ WStatus.pending := by
    intro hp; rw [hp] at ht; simp [WStatus.isTerminal] at ht
  cases e with
  | register v l =>
      have hvw : w ≠ v := by
        intro hh
        rw [hh, he.1] at ht
        simp [WStatus.isTerminal] at ht
      simp [lpStep, Function.update_apply, hvw]
  | mutate d t =>
      show (if s.inSet w = true ∧ s.status w = WStatus.pending then
        WStatus.dataSent else s.status w) = s.status w
      rw [if_neg (fun hc => hnp hc.2)]
  | timerFire v =>
      show (if w = v ∧ s.status w = WStatus.pending then
        WStatus.timedOut else s.status w) = s.status w
      rw [if_neg (fun hc => hnp hc.2)]
  | close v =>
      show (if w = v ∧ s.status w = WStatus.pending then
        WStatus.cancelled else s.status w) = s.status w
      rw [if_neg (fun hc => hnp hc.2)]

lemma lpStep_status_of_resolves {s : LPState} {e : LPEvent} {w : ℕ}
    (h : lpResolves s e w = true) :
    ((lpStep s e).status w).isTerminal = true := by
  cases e with
  | register v l => simp [lpResolves] at h
  | mutate d t =>
      simp [lpResolves] at h
      show (if s.inSet w = true ∧ s.status w = WStatus.pending then
        WStatus.dataSent else s.status w).isTerminal = true
      rw [if_pos ⟨h.1, h.2⟩]
      rfl
  | timerFire v =>
      simp [lpResolves] at h
      show (if w = v ∧ s.status w = WStatus.pending then
        WStatus.timedOut else s.status w).isTerminal = true
      rw [if_pos ⟨h.1.symm, h.2⟩]
      rfl
  | close v =>
      simp [lpResolves] at h
      show (if w = v ∧ s.status w = WStatus.pending then
        WStatus.cancelled else s.status w).isTerminal = true
      rw [if_pos ⟨h.1.symm, h.2⟩]
      rfl

lemma lpResolveCount_zero_of_terminal {w : ℕ} {tr : List LPEvent}
    {s s' : LPState} (hv : lpValid s tr s')
    (ht : (s.status w).isTerminal = true) :
    lpResolveCount s tr w = 0 ∧ s'.status w = s.status w := by
  induction tr generalizing s with
  | nil => cases hv; exact ⟨rfl, rfl⟩
  | cons e tr ih =>
      cases hv with
      | cons he htr =>
          have hres : lpResolves s e w = false := by
            cases hcase : lpResolves s e w
            · rfl
            · have hp := lpResolves_pending hcase
              rw [hp] at ht
              simp [WStatus.isTerminal] at ht
          have hstep := lpStep_status_of_terminal ht he
          have hrec := ih htr (by rw [hstep]; exact ht)
          constructor
          · show cond (lpResolves s e w) 1 0 +
              lpResolveCount (lpStep s e) tr w = 0
            rw [hres, hrec.1]
            rfl
          · rw [hrec.2, hstep]

lemma lpResolveCount_eq {w : ℕ} {tr : List LPEvent} {s s' : LPState}
    (hv : lpValid s tr s')
    (hs : s.status w = WStatus.unregistered ∨
      s.status w = WStatus.pending) :
    lpResolveCount s tr w = cond ((s'.status w).isTerminal) 1 0 := by
  induction tr generalizing s with
  | nil =>
      cases hv
      rcases hs with h | h <;> rw [h] <;> rfl
  | cons e tr ih =>
      cases hv with
      | cons he htr =>
          cases hcase : lpResolves s e w with
          | true =>
              have hterm := lpStep_status_of_resolves hcase
              have hzero := lpResolveCount_zero_of_terminal htr hterm
              show cond (lpResolves s e w) 1 0 +
                lpResolveCount (lpStep s e) tr w = _
              rw [hcase, hzero.1, hzero.2, hterm]
              rfl
          | false =>
              have hstat := lpStep_status_of_not_resolves hcase
              have hs' : (lpStep s e).status w = WStatus.unregistered ∨
                  (lpStep s e).status w = WStatus.pending := by
                rcases hstat with h | h
                · rw [h]; exact hs
                · right; exact h
              have hrec := ih htr hs'
              show cond (lpResolves s e w) 1 0 +
                lpResolveCount (lpStep s e) tr w = _
              rw [hcase, hrec]
              exact Nat.zero_add _

end LongPoll

namespace LongPoll

/-- A pending wait always has an armed timer and sits in the waiter set
(the handler creates all three together). -/
def lpInv (s : LPState) : Prop :=
  ∀ w, s.status w = WStatus.pending →
    s.timer w = true ∧ s.inSet w = true

lemma lpInv_init : lpInv lpInit := by
  intro w h
  simp [lpInit] at h

lemma lpInv_step {s : LPState} {e : LPEvent}
    (hinv : lpInv s) (he : lpEnabled s e) : lpInv (lpStep s e) := by
  intro w hw
  cases e with
  | register v l =>
      by_cases hvw : w = v
      · subst hvw
        constructor
        · show Function.update s.timer w true w = true
          simp
        · show Function.update s.inSet w true w = true
          simp
      · have hw' : s.status w = WStatus.pending := by
          have : Function.update s.status v WStatus.pending w = s.status w :=
            Function.update_noteq hvw _ _
          rw [← this]
          exact hw
        have hold := hinv w hw'
        constructor
        · show Function.update s.timer v true w = true
          rw [Function.update_noteq hvw]
          exact hold.1
        · show Function.update s.inSet v true w = true
          rw [Function.update_noteq hvw]
          exact hold.2
  | mutate d t =>
      exfalso
      have hw2 : (if s.inSet w = true ∧ s.status w = WStatus.pending then
          WStatus.dataSent else s.status w) = WStatus.pending := hw
      split at hw2
      · simp at hw2
      · next hcond => exact hcond ⟨(hinv w hw2).2, hw2⟩
  | timerFire v =>
      have hw2 : (if w = v ∧ s.status w = WStatus.pending then
          WStatus.timedOut else s.status w) = WStatus.pending := hw
      split at hw2
      · simp at hw2
      · next hcond =>
          have hvw : w ≠ v := fun hh => hcond ⟨hh, hw2⟩
          have hold := hinv w hw2
          constructor
          · show Function.update s.timer v false w = true
            rw [Function.update_noteq hvw]
            exact hold.1
          · show Function.update s.inSet v false w = true
            rw [Function.update_noteq hvw]
            exact hold.2
  | close v =>
      have hw2 : (if w = v ∧ s.status w = WStatus.pending then
          WStatus.cancelled else s.status w) = WStatus.pending := hw
      split at hw2
      · simp at hw2
      · next hcond =>
          have hvw : w ≠ v := fun hh => hcond ⟨hh, hw2⟩
          have hold := hinv w hw2
          constructor
          · show Function.update s.timer v false w = true
            rw [Function.update_noteq hvw]
            exact hold.1
          · show Function.update s.inSet v false w = true
            rw [Function.update_noteq hvw]
            exact hold.2

lemma lpInv_valid {s s' : LPState} {tr : List LPEvent}
    (hv : lpValid s tr s') (h : lpInv s) : lpInv s' := by
  induction tr generalizing s with
  | nil => cases hv; exact h
  | cons e tr ih =>
      cases hv with
      | cons he htr => exact ih htr (lpInv_step h he)

/-- The stored `updatedAt` never runs ahead of the clock. -/
def lpTimeInv (s : LPState) : Prop := s.updatedAt ≤ s.clock

lemma lpTimeInv_valid {s s' : LPState} {tr : List LPEvent}
    (hv : lpValid s tr s') (h : lpTimeInv s) : lpTimeInv s' := by
  induction tr generalizing s with
  | nil => cases hv; exact h
  | cons e tr ih =>
      cases hv with
      | cons he htr =>
          refine ih htr ?_
          cases e with
          | register v l => exact h
          | mutate d t => exact le_refl t
          | timerFire v => exact h
          | close v => exact h

end LongPoll

namespace LongPoll

/-- C1: exactly-once resolution.  Over every valid run of the backend,
(i) no wait is ever resolved twice — in particular a wait answered by a
mutation is never also answered by its timeout and vice versa; (ii) a
registered wait that is no longer pending was resolved exactly once;
(iii) a wait still pending has its timeout timer armed, so a run cannot
end with an unresolvable wait (the timer event remains enabled). -/
theorem C1_exactly_once_resolution (tr : List LPEvent) (s' : LPState)
    (w : ℕ) (hv : lpValid lpInit tr s') :
    lpResolveCount lpInit tr w ≤ 1 ∧
    (s'.status w ≠ WStatus.unregistered → s'.status w ≠ WStatus.pending →
      lpResolveCount lpInit tr w = 1) ∧
    (s'.status w = WStatus.pending → s'.timer w = true) := by
  have hcount := lpResolveCount_eq (w := w) hv (Or.inl rfl)
  refine ⟨?_, ?_, ?_⟩
  · rw [hcount]
    cases hb : (s'.status w).isTerminal <;> decide
  · intro h1 h2
    rw [hcount]
    have hterm : (s'.status w).isTerminal = true := by
      cases hst : s'.status w
      · exact absurd hst h1
      · exact absurd hst h2
      · rfl
      · rfl
      · rfl
    rw [hterm]
    rfl
  · intro hp
    exact ((lpInv_valid hv lpInv_init) w hp).1

/-- Witness for C1: register wait 0, let its timer fire; the wait is
resolved exactly once. -/
theorem C1_exactly_once_resolution_witness :
    lpResolveCount lpInit [LPEvent.register 0 0, LPEvent.timerFire 0] 0 = 1 :=
  (C1_exactly_once_resolution [LPEvent.register 0 0, LPEvent.timerFire 0]
    (lpStep (lpStep lpInit (LPEvent.register 0 0)) (LPEvent.timerFire 0)) 0
    (lpValid.cons ⟨rfl, by decide⟩
      (lpValid.cons rfl (lpValid.nil _)))).2.1 (by decide) (by decide)

/-- C2: a mutation resolves every waiter currently registered for the
resource with the fresh `(value, updatedAt)` payload, clears its timer,
and empties the whole waiter set in the same atomic step
(clear-then-notify). -/
theorem C2_mutation_resolves_all_waiters (tr : List LPEvent) (s : LPState)
    (w : ℕ) (delta t : ℤ) (hv : lpValid lpInit tr s)
    (hw : s.status w = WStatus.pending) :
    (lpStep s (LPEvent.mutate delta t)).status w = WStatus.dataSent ∧
    (lpStep s (LPEvent.mutate delta t)).respData w =
      some (s.score + delta, t) ∧
    (∀ v, (lpStep s (LPEvent.mutate delta t)).inSet v = false) ∧
    (lpStep s (LPEvent.mutate delta t)).timer w = false := by
  have hin := (lpInv_valid hv lpInv_init) w hw
  refine ⟨?_, ?_, ?_, ?_⟩
  · show (if s.inSet w = true ∧ s.status w = WStatus.pending then
      WStatus.dataSent else s.status w) = WStatus.dataSent
    rw [if_pos ⟨hin.2, hw⟩]
  · show (if s.inSet w = true ∧ s.status w = WStatus.pending then
      some (s.score + delta, t) else s.respData w) =
      some (s.score + delta, t)
    rw [if_pos ⟨hin.2, hw⟩]
  · intro v
    rfl
  · show (if s.inSet w = true then false else s.timer w) = false
    rw [if_pos hin.2]

/-- Witness for C2, the spec's scenario: a wait on the resource with
`lastSeen = 0` is registered, then a mutation writes `42` at `t = 5000`;
the wait is resolved in that very step with the mutated payload. -/
theorem C2_mutation_resolves_all_waiters_witness :
    (lpStep (lpStep lpInit (LPEvent.register 0 0))
      (LPEvent.mutate 42 5000)).status 0 = WStatus.dataSent ∧
    (lpStep (lpStep lpInit (LPEvent.register 0 0))
      (LPEvent.mutate 42 5000)).respData 0 = some (0 + 42, 5000) := by
  have h := C2_mutation_resolves_all_waiters [LPEvent.register 0 0]
    (lpStep lpInit (LPEvent.register 0 0)) 0 42 5000
    (lpValid.cons ⟨rfl, by decide⟩ (lpValid.nil _)) rfl
  exact ⟨h.1, h.2.1⟩

/-- C3 counterexample: the emitter writes `updatedAt = Date.now()` with no
monotonic counter; two mutations in the same millisecond form a valid run
and the second one leaves `updatedAt` unchanged — not strictly greater. -/
theorem C3_updatedAt_not_strict_counterexample :
    lpValid lpInit [LPEvent.mutate 1 5, LPEvent.mutate 2 5]
      (lpStep (lpStep lpInit (LPEvent.mutate 1 5)) (LPEvent.mutate 2 5)) ∧
    (lpStep (lpStep lpInit (LPEvent.mutate 1 5))
      (LPEvent.mutate 2 5)).updatedAt =
      (lpStep lpInit (LPEvent.mutate 1 5)).updatedAt ∧
    ¬ (lpStep lpInit (LPEvent.mutate 1 5)).updatedAt <
      (lpStep (lpStep lpInit (LPEvent.mutate 1 5))
        (LPEvent.mutate 2 5)).updatedAt := by
  refine ⟨lpValid.cons ?_ (lpValid.cons ?_ (lpValid.nil _)), rfl, ?_⟩
  · show lpInit.clock ≤ 5
    decide
  · show (lpStep lpInit (LPEvent.mutate 1 5)).clock ≤ 5
    decide
  · show ¬ (5 : ℤ) < 5
    decide

/-- C3 (amended): each mutation sets `updatedAt` to the mutation's clock
time, which is greater than or equal to — not strictly greater than — the
previous `updatedAt`; it is strictly greater exactly when the clock has
strictly advanced past the previous write. -/
theorem C3_updatedAt_monotone_amended (tr : List LPEvent) (s : LPState)
    (delta t : ℤ) (hv : lpValid lpInit tr s)
    (he : lpEnabled s (LPEvent.mutate delta t)) :
    (lpStep s (LPEvent.mutate delta t)).updatedAt = t ∧
    s.updatedAt ≤ (lpStep s (LPEvent.mutate delta t)).updatedAt ∧
    (s.clock < t →
      s.updatedAt < (lpStep s (LPEvent.mutate delta t)).updatedAt) := by
  have h0 : lpTimeInv lpInit := le_refl 0
  have htime : s.updatedAt ≤ s.clock := lpTimeInv_valid hv h0
  have he' : s.clock ≤ t := he
  refine ⟨rfl, ?_, ?_⟩
  · show s.updatedAt ≤ t
    exact le_trans htime he'
  · intro hlt
    show s.updatedAt < t
    exact lt_of_le_of_lt htime hlt

/-- Witness for C3 (amended): one mutation at clock time 5 from the
initial state. -/
theorem C3_updatedAt_monotone_amended_witness :
    (lpStep lpInit (LPEvent.mutate 1 5)).updatedAt = 5 ∧
    lpInit.updatedAt < (lpStep lpInit (LPEvent.mutate 1 5)).updatedAt := by
  have h := C3_updatedAt_monotone_amended [] lpInit 1 5 (lpValid.nil _)
    (show lpInit.clock ≤ 5 by decide)
  exact ⟨h.1, h.2.2 (by decide)⟩

end LongPoll

namespace DistributedRedis

open LongPoll (parseNatAux)

/-- `zRemRangeByScore key 0 windowStart`: drop all entries whose score
lies in `[0, windowStart]`.  The shared sorted set is modelled as a list
of `(score, member)` pairs. -/
def zRemRangeByScore (store : List (ℤ × String)) (lo hi : ℤ) :
    List (ℤ × String) :=
  store.filter (fun e => ¬ (lo ≤ e.1 ∧ e.1 ≤ hi))

/-- `zCard key`: number of members. -/
def zCard (store : List (ℤ × String)) : ℕ := store.length

/-- `zAdd key {score, value}`: update the score of an existing member,
else append the new member. -/
def zAdd (store : List (ℤ × String)) (score : ℤ) (value : String) :
    List (ℤ × String) :=
  if store.any (fun e => e.2 = value) then
    store.map (fun e => if e.2 = value then (score, value) else e)
  else store ++ [(score, value)]

/-- `zRem key value`: remove the member with that exact value (a no-op
when no member matches). -/
def zRem (store : List (ℤ × String)) (value : String) :
    List (ℤ × String) :=
  store.filter (fun e => e.2 ≠ value)

/-- `zRange key 0 0`: the member with the least `(score, value)`. -/
def zRangeFirst (store : List (ℤ × String)) : Option (ℤ × String) :=
  store.foldl
    (fun acc e =>
      match acc with
      | none => some e
      | some a =>
          if e.1 < a.1 ∨ (e.1 = a.1 ∧ e.2 < a.2) then some e else some a)
    none

/-- `parseInt(value.split('-')[0])` on a member string of the shape
`now-random`. -/
def parseIntSeg (s : String) : Option ℤ :=
  (parseNatAux (s.data.takeWhile (fun c => c ≠ '-')) 0).map
    (fun n => (n : ℤ))

/-- Result record of `slidingWindowRedis`: `storeError` models the
`error: 'Redis unavailable'` warning field of the fail-open branch. -/
structure RedisResult where
  allowed : Bool
  remaining : ℤ
  current : Option ℕ
  retryAfter : Option ℤ
  storeError : Bool
  deriving DecidableEq, Repr

/-- `slidingWindowRedis(clientId, maxRequests, windowMs)` (happy path):
trim old entries, count, insert the member `` `${now}-${Math.random()}` ``,
then admit iff the pre-insert count is below the limit; on denial the
code calls `zRem` with `` `${now}-${Math.random()}` `` **again** — a second
random draw.  `r1` is the random suffix of the inserted member, `r2` the
(independently drawn) suffix used for the removal. -/
def slidingWindowRedis (store : List (ℤ × String)) (maxRequests : ℕ)
    (windowMs now : ℤ) (r1 r2 : String) :
    List (ℤ × String) × RedisResult :=
  let windowStart := now - windowMs
  let s1 := zRemRangeByScore store 0 windowStart
  let count := zCard s1
  let s2 := zAdd s1 now (toString now ++ "-" ++ r1)
  if count < maxRequests then
    (s2, ⟨true, (maxRequests : ℤ) - count - 1, some (count + 1), none, false⟩)
  else
    let oldestScore :=
      match zRangeFirst s2 with
      | none => some now
      | some e => parseIntSeg e.2
    let retryAfter := oldestScore.map
      (fun o => max 1 ⌈((o + windowMs - now : ℤ) : ℚ) / 1000⌉)
    (zRem s2 (toString now ++ "-" ++ r2),
     ⟨false, 0, some count, retryAfter, false⟩)

/-- `slidingWindowRedis` with its `try/catch`: when the store operations
fail (`storeOk = false`), the catch branch fails open:
`{allowed: true, remaining: maxRequests, error: 'Redis unavailable'}`. -/
def slidingWindowRedisChecked (storeOk : Bool)
    (store : List (ℤ × String)) (maxRequests : ℕ) (windowMs now : ℤ)
    (r1 r2 : String) : List (ℤ × String) × RedisResult :=
  if storeOk then slidingWindowRedis store maxRequests windowMs now r1 r2
  else (store, ⟨true, (maxRequests : ℤ), none, none, true⟩)

/-- The three exits of `distributedRedisMiddleware`: 503 when Redis is
not connected, 429 on denial, `next()` otherwise. -/
inductive MiddlewareOutcome
  | serviceUnavailable
  | tooManyRequests
  | pass
  deriving DecidableEq, Repr

/-- `distributedRedisMiddleware(maxRequests, windowMs)`: reject with 503
before consulting the limiter when `isRedisAvailable` is false. -/
def distributedRedisMiddleware (isRedisAvailable : Bool)
    (result : RedisResult) : MiddlewareOutcome :=
  if !isRedisAvailable then MiddlewareOutcome.serviceUnavailable
  else if !result.allowed then MiddlewareOutcome.tooManyRequests
  else MiddlewareOutcome.pass

end DistributedRedis

namespace DistributedRedis

lemma append_right_ne {p r1 r2 : String} (h : r1 ≠ r2) :
    p ++ r1 ≠ p ++ r2 := by
  intro hc
  apply h
  have hd := congrArg String.data hc
  simp only [String.data_append] at hd
  exact String.ext (List.append_cancel_left hd)

/-- C9: in the denial path, the entry inserted with random suffix `r1` is
"removed" using a member built from a *second* random draw `r2`; since no
member carries that value, the `zRem` is a silent no-op and the inserted
phantom entry stays in the shared store — a denied request mutates the
shared state. -/
theorem C9_denied_request_leaves_phantom (store : List (ℤ × String))
    (maxRequests : ℕ) (windowMs now : ℤ) (r1 r2 : String)
    (hdeny : maxRequests ≤ zCard (zRemRangeByScore store 0 (now - windowMs)))
    (hr : r1 ≠ r2)
    (hfresh1 : ∀ e ∈ store, e.2 ≠ toString now ++ "-" ++ r1)
    (hfresh2 : ∀ e ∈ store, e.2 ≠ toString now ++ "-" ++ r2) :
    ((slidingWindowRedis store maxRequests windowMs now r1 r2).2).allowed =
      false ∧
    (slidingWindowRedis store maxRequests windowMs now r1 r2).1 =
      zRemRangeByScore store 0 (now - windowMs) ++
        [(now, toString now ++ "-" ++ r1)] ∧
    (now, toString now ++ "-" ++ r1) ∈
      (slidingWindowRedis store maxRequests windowMs now r1 r2).1 ∧
    (now, toString now ++ "-" ++ r1) ∉ store := by
  have hv12 : (toString now ++ "-" ++ r1) ≠ (toString now ++ "-" ++ r2) :=
    append_right_ne hr
  have hcond : ¬ (zCard (zRemRangeByScore store 0 (now - windowMs)) <
      maxRequests) := by omega
  have hnoadd : ¬ ((zRemRangeByScore store 0 (now - windowMs)).any
      (fun e => e.2 = toString now ++ "-" ++ r1) = true) := by
    intro hc
    simp only [List.any_eq_true, decide_eq_true_eq] at hc
    obtain ⟨e, he, heq⟩ := hc
    simp only [zRemRangeByScore] at he
    exact hfresh1 e (List.mem_of_mem_filter he) heq
  have hs2 : zAdd (zRemRangeByScore store 0 (now - windowMs)) now
      (toString now ++ "-" ++ r1) =
      zRemRangeByScore store 0 (now - windowMs) ++
        [(now, toString now ++ "-" ++ r1)] := by
    unfold zAdd
    rw [if_neg hnoadd]
  have hrem : zRem (zRemRangeByScore store 0 (now - windowMs) ++
      [(now, toString now ++ "-" ++ r1)]) (toString now ++ "-" ++ r2) =
      zRemRangeByScore store 0 (now - windowMs) ++
        [(now, toString now ++ "-" ++ r1)] := by
    unfold zRem
    apply List.filter_eq_self.mpr
    intro e he
    rw [decide_eq_true_eq]
    rcases List.mem_append.mp he with h | h
    · simp only [zRemRangeByScore] at h
      exact hfresh2 e (List.mem_of_mem_filter h)
    · rw [List.mem_singleton] at h
      subst h
      exact hv12
  refine ⟨?_, ?_, ?_, ?_⟩
  · simp only [slidingWindowRedis]
    rw [if_neg hcond]
  · simp only [slidingWindowRedis]
    rw [if_neg hcond]
    show zRem _ _ = _
    rw [hs2, hrem]
  · simp only [slidingWindowRedis]
    rw [if_neg hcond]
    show (now, toString now ++ "-" ++ r1) ∈ zRem _ _
    rw [hs2, hrem]
    exact List.mem_append.mpr (Or.inr (List.mem_singleton.mpr rfl))
  · intro hc
    exact hfresh1 _ hc rfl

/-- Witness for C9: a full store with one fresh entry, distinct random
suffixes `"a"` and `"b"`. -/
theorem C9_denied_request_leaves_phantom_witness :
    ((slidingWindowRedis [(900, "900-z")] 1 1000 1000 "a" "b").2).allowed =
      false ∧
    (slidingWindowRedis [(900, "900-z")] 1 1000 1000 "a" "b").1 =
      [(900, "900-z"), (1000, "1000-a")] := by
  have h := C9_denied_request_leaves_phantom [(900, "900-z")] 1 1000 1000
    "a" "b" (by decide) (by decide) (by decide) (by decide)
  refine ⟨h.1, ?_⟩
  rw [h.2.1]
  rfl

/-- C10: when the shared store is unreachable the limiter fails open —
the catch branch returns `allowed = true` with the warning flag set and
`remaining = maxRequests` — and the admission layer surfaces store
unavailability as a distinct 503 `ServiceUnavailable` response before
consulting the limiter. -/
theorem C10_fail_open_and_service_unavailable
    (store : List (ℤ × String)) (maxRequests : ℕ) (windowMs now : ℤ)
    (r1 r2 : String) :
    ((slidingWindowRedisChecked false store maxRequests windowMs now
        r1 r2).2).allowed = true ∧
    ((slidingWindowRedisChecked false store maxRequests windowMs now
        r1 r2).2).storeError = true ∧
    ((slidingWindowRedisChecked false store maxRequests windowMs now
        r1 r2).2).remaining = (maxRequests : ℤ) ∧
    (∀ r : RedisResult, distributedRedisMiddleware false r =
      MiddlewareOutcome.serviceUnavailable) :=
  ⟨rfl, rfl, rfl, fun _ => rfl⟩

end DistributedRedis
